import Mathlib

/-!
Verification of the sequence utilities of the GenAI-Insulin_Drug repository
(`src/utils/modelUtils.js` and the sequence-generation utilities) against its
natural-language specification.

The repository's substantive computation is split between real client-side
validation code (embedded here directly from the source) and a
"SimilarityRanker" component that the specification defines but that the
repository only mocks with `Math.random()`; the ranker is modelled from the
specification where noted.
-/

set_option maxRecDepth 4096

/-- The canonical 20-symbol amino-acid alphabet, exactly the string constant
`validAminoAcids = 'ACDEFGHIKLMNPQRSTVWY'` that appears in every validation
site of `modelUtils.js`. -/
def validAminoAcids : String := "ACDEFGHIKLMNPQRSTVWY"

/-- The alphabet as a list of characters (the JS code iterates the string). -/
def aaList : List Char := validAminoAcids.toList

/-- Join a list of characters with a comma-space separator, as JS
`invalidChars.join(', ')` does. -/
def joinChars : List Char → String
  | [] => ""
  | [c] => String.mk [c]
  | c :: cs => String.mk [c] ++ ", " ++ joinChars cs

/-- The object `{ isValid, errors }` returned by `validateProteinSequence`. -/
structure ValidationResult where
  isValid : Bool
  errors : List String
deriving DecidableEq

/-- Embeds `validateProteinSequence` (modelUtils.js lines 121-142, repeated
verbatim at lines 267-288): an empty sequence yields the "required" error;
otherwise a wrong length and/or invalid characters each push an error;
`isValid` is `errors.length === 0`. -/
def validateProteinSequence (s : String) : ValidationResult :=
  let errors : List String :=
    if s = "" then
      ["Protein sequence is required"]
    else
      (if s.length ≠ 50 then
        ["Sequence must be exactly 50 characters long (current: " ++
          toString s.length ++ ")"]
      else []) ++
      (let invalidChars := s.toList.filter (fun c => !(aaList.contains c))
       if invalidChars ≠ [] then
        ["Invalid amino acid characters: " ++ joinChars invalidChars]
       else [])
  { isValid := errors.isEmpty, errors := errors }

/-- Embeds the synchronous validation prefix of `predictSMILES`
(modelUtils.js lines 66-76): the length guard throws first, then the
invalid-character guard; only after both pass does the function proceed to
prediction (here represented by `Except.ok`). -/
def predictSMILESValidation (s : String) : Except String Unit :=
  if s = "" ∨ s.length ≠ 50 then
    .error "Protein sequence must be exactly 50 characters long"
  else
    let invalidChars := s.toList.filter (fun c => !(aaList.contains c))
    if invalidChars ≠ [] then
      .error ("Invalid amino acid characters found: " ++ joinChars invalidChars)
    else .ok ()

/-- Embeds the synchronous validation prefix of `generateSimilarSequences`
(sequence-generation utilities lines 212-222); the code is character-for-
character the same guard sequence as in `predictSMILES`. -/
def generateSimilarSequencesValidation (s : String) : Except String Unit :=
  if s = "" ∨ s.length ≠ 50 then
    .error "Protein sequence must be exactly 50 characters long"
  else
    let invalidChars := s.toList.filter (fun c => !(aaList.contains c))
    if invalidChars ≠ [] then
      .error ("Invalid amino acid characters found: " ++ joinChars invalidChars)
    else .ok ()

/-- JS `ToInt32`: reduce an exact integer to the signed 32-bit value the JS
bitwise operators produce (`a & a` and the result of `<<`). -/
def toInt32 (x : Int) : Int :=
  let m := x % 4294967296
  if m < 2147483648 then m else m - 4294967296

/-- One step of the hash loop in `mockPredictSMILES` (modelUtils.js lines
54-57): `a = ((a << 5) - a) + b.charCodeAt(0); return a & a;`.  The shift is
32-bit (`toInt32 (32 * a)`), the subtraction and addition are exact (they fit
a double), and `a & a` reduces the result to 32 bits. -/
def hashStep (a : Int) (c : Char) : Int :=
  toInt32 (toInt32 (32 * a) - a + (c.toNat : Int))

/-- The hash `proteinSequence.split('').reduce(..., 0)` of
`mockPredictSMILES`. -/
def hashOf (s : String) : Int :=
  s.toList.foldl hashStep 0

/-- The fixed `commonSMILES` array of `mockPredictSMILES` (modelUtils.js
lines 40-51): ten entries, the last nine being the same string. -/
def commonSMILES : List String :=
  [ "CC(C)CC1=CC=C(C=C1)C(C)C(=O)O"
  , "CC1=CC=C(C=C1)C2=CC(=O)C3=C(C=CC=C3O2)O"
  , "CC1=CC=C(C=C1)C2=CC(=O)C3=C(C=CC=C3O2)O"
  , "CC1=CC=C(C=C1)C2=CC(=O)C3=C(C=CC=C3O2)O"
  , "CC1=CC=C(C=C1)C2=CC(=O)C3=C(C=CC=C3O2)O"
  , "CC1=CC=C(C=C1)C2=CC(=O)C3=C(C=CC=C3O2)O"
  , "CC1=CC=C(C=C1)C2=CC(=O)C3=C(C=CC=C3O2)O"
  , "CC1=CC=C(C=C1)C2=CC(=O)C3=C(C=CC=C3O2)O"
  , "CC1=CC=C(C=C1)C2=CC(=O)C3=C(C=CC=C3O2)O"
  , "CC1=CC=C(C=C1)C2=CC(=O)C3=C(C=CC=C3O2)O" ]

/-- Embeds `mockPredictSMILES` (modelUtils.js lines 36-61):
`index = Math.abs(hash) % commonSMILES.length; return commonSMILES[index]`. -/
def mockPredictSMILES (s : String) : String :=
  commonSMILES.getD ((hashOf s).natAbs % commonSMILES.length) ""

/-- Descending comparison on a numeric key: `a` may come before `b` exactly
when `key b ≤ key a`.  `List.insertionSort (keyGE key)` is then the stable
descending-by-key sort that both the spec's step 3 and the JS
`sequences.sort((a, b) => b.score - a.score)` (ES2019 stable sort) denote. -/
def keyGE {α : Type} {β : Type} [LinearOrder β] (key : α → β) (a b : α) : Prop :=
  key b ≤ key a

instance {α β : Type} [LinearOrder β] (key : α → β) : DecidableRel (keyGE key) :=
  fun a b => inferInstanceAs (Decidable (key b ≤ key a))

instance {α β : Type} [LinearOrder β] (key : α → β) : IsTotal α (keyGE key) :=
  ⟨fun a b => (le_total (key a) (key b)).symm⟩

instance {α β : Type} [LinearOrder β] (key : α → β) : IsTrans α (keyGE key) :=
  ⟨fun _ _ _ h1 h2 => le_trans h2 h1⟩

/-- One entry `{ sequence, score }` pushed by `mockGenerateSequences`; the
mock score is a fraction of the unit produced by `Math.random()`, modelled
exactly as a rational. -/
structure MockEntry where
  sequence : List Char
  score : ℚ
deriving DecidableEq

/-- Per-character body of the `.map` in `mockGenerateSequences` (lines
186-194), with `Math.random()` modelled as an oracle stream `rs` of
rationals consumed at increasing indices: draw once for the 10% test and,
when it fires, once more for the replacement index.  Returns the produced
character and the next unused stream index. -/
def mutateChar (rs : Nat → ℚ) (i : Nat) (c : Char) : Char × Nat :=
  if rs i < 1 / 10 then
    (aaList.getD (Int.toNat ⌊rs (i + 1) * 20⌋) 'A', i + 2)
  else (c, i + 1)

/-- The `.map` over `baseSequence.split('')` of `mockGenerateSequences`,
threading the random-stream index left to right. -/
def mutateSeq (rs : Nat → ℚ) (i : Nat) : List Char → List Char × Nat
  | [] => ([], i)
  | c :: cs =>
    let p := mutateChar rs i c
    let q := mutateSeq rs p.2 cs
    (p.1 :: q.1, q.2)

/-- The `for (let i = 0; i < 5; i++)` loop of `mockGenerateSequences`: each
iteration mutates the base sequence and then draws one more random number
for `mockScore = 2.5 + Math.random() * 1.5`. -/
def mockLoop (rs : Nat → ℚ) (base : List Char) : Nat → Nat → List MockEntry
  | 0, _ => []
  | n + 1, i =>
    let p := mutateSeq rs i base
    { sequence := p.1, score := 5 / 2 + rs p.2 * (3 / 2) } ::
      mockLoop rs base n (p.2 + 1)

/-- Embeds `mockGenerateSequences` (sequence-generation utilities lines
179-207) with `Math.random()` replaced by the oracle stream `rs`: five
mutated copies of the input are scored and stably sorted by descending
score. -/
def mockGenerateSequences (rs : Nat → ℚ) (base : List Char) : List MockEntry :=
  List.insertionSort (keyGE MockEntry.score) (mockLoop rs base 5 0)

/-- Modelled from the spec: index of a canonical residue in the classic
BLOSUM62 row order A R N D C Q E G H I L K M F P S T W Y V.  The repository
contains no substitution matrix (its "BLOSUM62 scores" are `Math.random()`
placeholders), so the matrix named by spec sections 3 and 6 is supplied
here. -/
def aaIdx (c : Char) : Nat :=
  match c with
  | 'A' => 0 | 'R' => 1 | 'N' => 2 | 'D' => 3 | 'C' => 4
  | 'Q' => 5 | 'E' => 6 | 'G' => 7 | 'H' => 8 | 'I' => 9
  | 'L' => 10 | 'K' => 11 | 'M' => 12 | 'F' => 13 | 'P' => 14
  | 'S' => 15 | 'T' => 16 | 'W' => 17 | 'Y' => 18 | 'V' => 19
  | _ => 0

/-- Modelled from the spec: the standard BLOSUM62 20-by-20 table over the
canonical alphabet, rows and columns in the order A R N D C Q E G H I L K M
F P S T W Y V. -/
def blosum62Table : List (List Int) :=
  [ [4, -1, -2, -2, 0, -1, -1, 0, -2, -1, -1, -1, -1, -2, -1, 1, 0, -3, -2, 0]
  , [-1, 5, 0, -2, -3, 1, 0, -2, 0, -3, -2, 2, -1, -3, -2, -1, -1, -3, -2, -3]
  , [-2, 0, 6, 1, -3, 0, 0, 0, 1, -3, -3, 0, -2, -3, -2, 1, 0, -4, -2, -3]
  , [-2, -2, 1, 6, -3, 0, 2, -1, -1, -3, -4, -1, -3, -3, -1, 0, -1, -4, -3, -3]
  , [0, -3, -3, -3, 9, -3, -4, -3, -3, -1, -1, -3, -1, -2, -3, -1, -1, -2, -2, -1]
  , [-1, 1, 0, 0, -3, 5, 2, -2, 0, -3, -2, 1, 0, -3, -1, 0, -1, -2, -1, -2]
  , [-1, 0, 0, 2, -4, 2, 5, -2, 0, -3, -3, 1, -2, -3, -1, 0, -1, -3, -2, -2]
  , [0, -2, 0, -1, -3, -2, -2, 6, -2, -4, -4, -2, -3, -3, -2, 0, -2, -2, -3, -3]
  , [-2, 0, 1, -1, -3, 0, 0, -2, 8, -3, -3, -1, -2, -1, -2, -1, -2, -2, 2, -3]
  , [-1, -3, -3, -3, -1, -3, -3, -4, -3, 4, 2, -3, 1, 0, -3, -2, -1, -3, -1, 3]
  , [-1, -2, -3, -4, -1, -2, -3, -4, -3, 2, 4, -2, 2, 0, -3, -2, -1, -2, -1, 1]
  , [-1, 2, 0, -1, -3, 1, 1, -2, -1, -3, -2, 5, -1, -3, -1, 0, -1, -3, -2, -2]
  , [-1, -1, -2, -3, -1, 0, -2, -3, -2, 1, 2, -1, 5, 0, -2, -1, -1, -1, -1, 1]
  , [-2, -3, -3, -3, -2, -3, -3, -3, -1, 0, 0, -3, 0, 6, -4, -2, -2, 1, 3, -1]
  , [-1, -2, -2, -1, -3, -1, -1, -2, -2, -3, -3, -1, -2, -4, 7, -1, -1, -4, -3, -2]
  , [1, -1, 1, 0, -1, 0, 0, 0, -1, -2, -2, 0, -1, -2, -1, 4, 1, -3, -2, -2]
  , [0, -1, 0, -1, -1, -1, -1, -2, -2, -1, -1, -1, -1, -2, -1, 1, 5, -2, -2, 0]
  , [-3, -3, -4, -4, -2, -2, -3, -2, -2, -3, -2, -3, -1, 1, -4, -3, -2, 11, 2, -3]
  , [-2, -2, -2, -3, -2, -1, -2, -3, 2, -1, -1, -2, -1, 3, -3, -2, -2, 2, 7, -1]
  , [0, -3, -3, -3, -1, -2, -2, -3, -3, 3, 1, -2, 1, -1, -2, -2, 0, -3, -1, 4] ]

/-- Modelled from the spec: the SubstitutionMatrix lookup
`SubstitutionMatrix[a][b]` (total on the canonical alphabet; validation
precedes every use, so the out-of-alphabet default is never reached by
`rank`). -/
def blosum62 (a b : Char) : Int :=
  (blosum62Table.getD (aaIdx a) []).getD (aaIdx b) 0

/-- Modelled from the spec, section 4.1 step 1: the similarity score of a
candidate against the reference, computed by zipping the two sequences and
summing the matrix entries. -/
def scoreAgainst (reference candidate : List Char) : Int :=
  (List.zipWith blosum62 reference candidate).sum

/-- A Sequence paired with its similarity score (spec section 3,
ScoredCandidate). -/
structure ScoredCandidate where
  sequence : List Char
  score : Int
deriving DecidableEq

/-- Modelled from the spec, section 7: the error kinds of `rank`.
`InvalidResidue` carries the offending position/character pairs. -/
inductive RankError where
  | LengthMismatch : RankError
  | InvalidResidue : List (Nat × Char) → RankError
deriving DecidableEq

/-- The position/character pairs of a sequence whose character is outside
the canonical alphabet. -/
def invalidResiduesOf (s : List Char) : List (Nat × Char) :=
  s.enum.filter (fun p => !(aaList.contains p.2))

/-- Modelled from the spec, section 4.1: `rank` validates lengths, then
residues, then scores every candidate by `scoreAgainst`, stably sorts by
descending score, and truncates to `k`. -/
def rank (reference : List Char) (candidates : List (List Char)) (k : Nat) :
    Except RankError (List ScoredCandidate) :=
  if candidates.any (fun c => c.length ≠ reference.length) then
    .error .LengthMismatch
  else
    let offenders :=
      invalidResiduesOf reference ++ (candidates.map invalidResiduesOf).flatten
    if offenders ≠ [] then
      .error (.InvalidResidue offenders)
    else
      let scored := candidates.map
        (fun c => { sequence := c, score := scoreAgainst reference c : ScoredCandidate })
      .ok ((List.insertionSort (keyGE ScoredCandidate.score) scored).take k)

/-- The independently-stated score of the spec: the sum over positions `i`
in `[0, L)` of `SubstitutionMatrix[reference[i]][candidate[i]]`. -/
def specPositionalScore (reference candidate : List Char) : Int :=
  ((List.range reference.length).map
    (fun i => blosum62 (reference.getD i 'A') (candidate.getD i 'A'))).sum

/-- The spec's self-similarity score: the sum of
`SubstitutionMatrix[x][x]` over all residues `x` of the reference. -/
def specSelfScore (reference : List Char) : Int :=
  (reference.map (fun x => blosum62 x x)).sum

/-! Helper lemmas. -/

lemma keyGE_def {α β : Type} [LinearOrder β] (key : α → β) (a b : α) :
    keyGE key a b ↔ key b ≤ key a := Iff.rfl

/-- Stability of one ordered insertion: filtering the result at a fixed key
value either prepends the inserted element (when it has that key) or leaves
the filtered list unchanged. -/
lemma filter_orderedInsert {α β : Type} [LinearOrder β] (key : α → β) (s : β)
    (x : α) (l : List α) :
    (List.orderedInsert (keyGE key) x l).filter (fun c => decide (key c = s)) =
      if key x = s then x :: l.filter (fun c => decide (key c = s))
      else l.filter (fun c => decide (key c = s)) := by
  induction l with
  | nil =>
    by_cases hx : key x = s <;> simp [List.orderedInsert, List.filter, hx]
  | cons y ys ih =>
    by_cases hxy : keyGE key x y
    · rw [List.orderedInsert, if_pos hxy]
      by_cases hx : key x = s <;> simp [List.filter, hx]
    · rw [List.orderedInsert, if_neg hxy]
      by_cases hy : key y = s
      · by_cases hx : key x = s
        · exact absurd (hx.trans hy.symm).ge hxy
        · simp [List.filter, hy, hx, ih]
      · by_cases hx : key x = s <;> simp [List.filter, hy, hx, ih]

/-- Stability of the whole insertion sort: at every fixed key value the
filtered output equals the filtered input. -/
lemma filter_insertionSort {α β : Type} [LinearOrder β] (key : α → β) (s : β)
    (l : List α) :
    (List.insertionSort (keyGE key) l).filter (fun c => decide (key c = s)) =
      l.filter (fun c => decide (key c = s)) := by
  induction l with
  | nil => rfl
  | cons x xs ih =>
    rw [List.insertionSort, filter_orderedInsert]
    by_cases hx : key x = s <;> simp [List.filter, hx, ih]

lemma getD_mem {α : Type} (l : List α) (n : Nat) (d : α) (h : d ∈ l) :
    l.getD n d ∈ l := by
  by_cases hn : n < l.length
  · rw [List.getD_eq_getElem l d hn]
    exact List.getElem_mem hn
  · rw [List.getD_eq_default l d (le_of_not_lt hn)]
    exact h

lemma invalidResiduesOf_eq_nil {s : List Char} (h : ∀ c ∈ s, c ∈ aaList) :
    invalidResiduesOf s = [] := by
  rw [invalidResiduesOf, List.filter_eq_nil_iff]
  intro p hp
  have hsnd : p.2 ∈ s := by
    have := List.mem_enum_iff_getElem?.mp hp
    exact List.mem_iff_getElem?.mpr ⟨p.1, this⟩
  simp [h p.2 hsnd]

/-- Under the spec's preconditions `rank` reaches the scoring branch: it
returns the stably sorted, truncated scored-candidate list. -/
lemma rank_ok {reference : List Char} {candidates : List (List Char)} (k : Nat)
    (hlen : ∀ c ∈ candidates, c.length = reference.length)
    (href : ∀ x ∈ reference, x ∈ aaList)
    (hcand : ∀ c ∈ candidates, ∀ x ∈ c, x ∈ aaList) :
    rank reference candidates k =
      .ok ((List.insertionSort (keyGE ScoredCandidate.score)
        (candidates.map
          (fun c => { sequence := c, score := scoreAgainst reference c }))).take k) := by
  rw [rank]
  have h1 : candidates.any (fun c => c.length ≠ reference.length) = false := by
    simp only [List.any_eq_false, decide_eq_true_eq, ne_eq, not_not]
    exact hlen
  rw [h1]
  have h2 : invalidResiduesOf reference ++
      (candidates.map invalidResiduesOf).flatten = [] := by
    rw [invalidResiduesOf_eq_nil href, List.nil_append,
      List.flatten_eq_nil_iff]
    intro l hl
    obtain ⟨c, hc, rfl⟩ := List.mem_map.mp hl
    exact invalidResiduesOf_eq_nil (hcand c hc)
  simp only [h2]
  simp

/-- The zip-and-sum score equals the spec's position-indexed sum whenever
the lengths agree. -/
lemma scoreAgainst_eq_spec :
    ∀ (reference candidate : List Char),
      candidate.length = reference.length →
      scoreAgainst reference candidate = specPositionalScore reference candidate
  | [], [], _ => rfl
  | [], c :: cs, h => by simp at h
  | r :: rs, [], h => by simp at h
  | r :: rs, c :: cs, h => by
    have hlen : cs.length = rs.length := by
      simpa using h
    have ih := scoreAgainst_eq_spec rs cs hlen
    rw [scoreAgainst, specPositionalScore] at *
    simp only [List.zipWith_cons_cons, List.sum_cons, List.length_cons,
      List.range_succ_eq_map, List.map_cons, List.map_map]
    rw [ih]
    simp [Function.comp_def]

/-- Scoring a sequence against itself sums the diagonal matrix entries. -/
lemma scoreAgainst_self : ∀ reference : List Char,
    scoreAgainst reference reference = specSelfScore reference
  | [] => rfl
  | r :: rs => by
    have ih := scoreAgainst_self rs
    rw [scoreAgainst, specSelfScore] at *
    simp only [List.zipWith_cons_cons, List.sum_cons, List.map_cons]
    rw [ih]

/-- Diagonal dominance of BLOSUM62: on the canonical alphabet every row is
maximised on the diagonal. -/
lemma blosum62_dominant :
    ∀ x ∈ aaList, ∀ y ∈ aaList, blosum62 x y ≤ blosum62 x x := by decide

/-- Against a fixed valid reference, no equal-length valid candidate can
beat the reference itself. -/
lemma scoreAgainst_le_self :
    ∀ (reference candidate : List Char),
      candidate.length = reference.length →
      (∀ x ∈ reference, x ∈ aaList) →
      (∀ x ∈ candidate, x ∈ aaList) →
      scoreAgainst reference candidate ≤ scoreAgainst reference reference
  | [], _, _, _, _ => by simp [scoreAgainst]
  | r :: rs, [], h, _, _ => by simp at h
  | r :: rs, c :: cs, h, hr, hc => by
    have hlen : cs.length = rs.length := by simpa using h
    have ih := scoreAgainst_le_self rs cs hlen
      (fun x hx => hr x (List.mem_cons_of_mem r hx))
      (fun x hx => hc x (List.mem_cons_of_mem c hx))
    have hdom : blosum62 r c ≤ blosum62 r r :=
      blosum62_dominant r (hr r (List.mem_cons_self r rs)) c (hc c (List.mem_cons_self c cs))
    rw [scoreAgainst, scoreAgainst]
    simp only [List.zipWith_cons_cons, List.sum_cons]
    exact add_le_add hdom ih

lemma filter_invalid_eq_nil_iff (s : String) :
    s.toList.filter (fun c => !(aaList.contains c)) = [] ↔
      ∀ c ∈ s.toList, c ∈ aaList := by
  rw [List.filter_eq_nil_iff]
  simp

/-- The error list of `validateProteinSequence` is empty exactly for
non-empty, length-50, all-canonical inputs. -/
lemma validateProteinSequence_errors_iff (s : String) :
    (validateProteinSequence s).errors = [] ↔
      (s ≠ "" ∧ s.length = 50 ∧ ∀ c ∈ s.toList, c ∈ aaList) := by
  rw [validateProteinSequence]
  by_cases h0 : s = ""
  · simp [h0]
  · rw [if_neg h0]
    simp only [ne_eq, h0, not_false_eq_true, true_and]
    rw [List.append_eq_nil]
    constructor
    · rintro ⟨ha, hb⟩
      constructor
      · by_contra hlen
        rw [if_pos hlen] at ha
        exact List.cons_ne_nil _ _ ha
      · refine fun c hc => (filter_invalid_eq_nil_iff s).mp ?_ c hc
        by_contra hf
        rw [if_pos hf] at hb
        exact List.cons_ne_nil _ _ hb
    · rintro ⟨hlen, hchars⟩
      rw [← filter_invalid_eq_nil_iff] at hchars
      exact ⟨if_neg (not_not_intro hlen), if_neg (not_not_intro hchars)⟩

lemma validateProteinSequence_isValid_eq (s : String) :
    (validateProteinSequence s).isValid = (validateProteinSequence s).errors.isEmpty := by
  rw [validateProteinSequence]

lemma aaList_getD_mem (j : Nat) : aaList.getD j 'A' ∈ aaList :=
  getD_mem aaList j 'A' (by decide)

lemma mutateChar_mem (rs : Nat → ℚ) (i : Nat) {c : Char} (h : c ∈ aaList) :
    (mutateChar rs i c).1 ∈ aaList := by
  rw [mutateChar]
  split
  · exact aaList_getD_mem _
  · exact h

lemma mutateSeq_length (rs : Nat → ℚ) :
    ∀ (l : List Char) (i : Nat), (mutateSeq rs i l).1.length = l.length
  | [], _ => rfl
  | c :: cs, i => by
    rw [mutateSeq]
    simpa using mutateSeq_length rs cs (mutateChar rs i c).2

lemma mutateSeq_mem (rs : Nat → ℚ) :
    ∀ (l : List Char) (i : Nat), (∀ c ∈ l, c ∈ aaList) →
      ∀ c ∈ (mutateSeq rs i l).1, c ∈ aaList
  | [], _, _ => by simp [mutateSeq]
  | c :: cs, i, h => by
    rw [mutateSeq]
    intro x hx
    rcases List.mem_cons.mp hx with hx | hx
    · subst hx
      exact mutateChar_mem rs i (h c (List.mem_cons_self c cs))
    · exact mutateSeq_mem rs cs (mutateChar rs i c).2
        (fun y hy => h y (List.mem_cons_of_mem c hy)) x hx

lemma mockLoop_length (rs : Nat → ℚ) (base : List Char) :
    ∀ (n i : Nat), (mockLoop rs base n i).length = n
  | 0, _ => rfl
  | n + 1, i => by
    rw [mockLoop]
    simpa using mockLoop_length rs base n _

lemma mockLoop_mem (rs : Nat → ℚ) (base : List Char)
    (hrs : ∀ n, 0 ≤ rs n ∧ rs n < 1) (hbase : ∀ c ∈ base, c ∈ aaList) :
    ∀ (n i : Nat), ∀ e ∈ mockLoop rs base n i,
      e.sequence.length = base.length ∧ (∀ c ∈ e.sequence, c ∈ aaList) ∧
        5 / 2 ≤ e.score ∧ e.score < 4
  | 0, _ => by simp [mockLoop]
  | n + 1, i => by
    rw [mockLoop]
    intro e he
    rcases List.mem_cons.mp he with he | he
    · subst he
      refine ⟨mutateSeq_length rs base i, mutateSeq_mem rs base i hbase, ?_, ?_⟩
      · have h := (hrs (mutateSeq rs i base).2).1
        simp only
        nlinarith
      · have h := (hrs (mutateSeq rs i base).2).2
        have h0 := (hrs (mutateSeq rs i base).2).1
        simp only
        nlinarith
    · exact mockLoop_mem rs base hrs hbase n _ e he

/-! Claim theorems. -/

/-- C10: `validateProteinSequence` returns `isValid = true` if and only if
the input is non-empty, has length exactly 50, and every character is in
the alphabet ACDEFGHIKLMNPQRSTVWY; equivalently, the returned error list is
empty exactly in that case and non-empty otherwise. -/
theorem claim_C10_validateProteinSequence (s : String) :
    ((validateProteinSequence s).isValid = true ↔
      (s ≠ "" ∧ s.length = 50 ∧ ∀ c ∈ s.toList, c ∈ aaList)) ∧
    ((validateProteinSequence s).errors = [] ↔
      (s ≠ "" ∧ s.length = 50 ∧ ∀ c ∈ s.toList, c ∈ aaList)) := by
  have h := validateProteinSequence_errors_iff s
  refine ⟨?_, h⟩
  rw [validateProteinSequence_isValid_eq, List.isEmpty_iff]
  exact h

/-- C5: every input whose length differs from 50 makes both
`predictSMILES` and `generateSimilarSequences` fail synchronously with the
length error, before any further processing, and no result is produced. -/
theorem claim_C5_length_error (s : String) (h : s.length ≠ 50) :
    predictSMILESValidation s =
      .error "Protein sequence must be exactly 50 characters long" ∧
    generateSimilarSequencesValidation s =
      .error "Protein sequence must be exactly 50 characters long" := by
  constructor
  · rw [predictSMILESValidation, if_pos (Or.inr h)]
  · rw [generateSimilarSequencesValidation, if_pos (Or.inr h)]

theorem claim_C5_witness :
    "AAA".length ≠ 50 ∧
      (predictSMILESValidation "AAA" =
        .error "Protein sequence must be exactly 50 characters long" ∧
      generateSimilarSequencesValidation "AAA" =
        .error "Protein sequence must be exactly 50 characters long") :=
  ⟨by decide, claim_C5_length_error "AAA" (by decide)⟩

/-- C4 counterexample: the invalid-residue failure does not identify the
position of the offending character.  Two length-50 inputs that place the
out-of-alphabet residue X at position 0 and at position 49 respectively
produce exactly the same error value, so no position information is
reported (the claim requires the error to identify the position). -/
theorem claim_C4_counterexample :
    generateSimilarSequencesValidation
        "XAAAAAAAAAAAAAAAAAAAAAAAAAAAAAAAAAAAAAAAAAAAAAAAAA" =
      .error "Invalid amino acid characters found: X" ∧
    generateSimilarSequencesValidation
        "AAAAAAAAAAAAAAAAAAAAAAAAAAAAAAAAAAAAAAAAAAAAAAAAAX" =
      .error "Invalid amino acid characters found: X" ∧
    predictSMILESValidation
        "XAAAAAAAAAAAAAAAAAAAAAAAAAAAAAAAAAAAAAAAAAAAAAAAAA" =
      .error "Invalid amino acid characters found: X" ∧
    ("XAAAAAAAAAAAAAAAAAAAAAAAAAAAAAAAAAAAAAAAAAAAAAAAAA" : String) ≠
      "AAAAAAAAAAAAAAAAAAAAAAAAAAAAAAAAAAAAAAAAAAAAAAAAAX" ∧
    ("XAAAAAAAAAAAAAAAAAAAAAAAAAAAAAAAAAAAAAAAAAAAAAAAAA" : String).toList.indexOf 'X' = 0 ∧
    ("AAAAAAAAAAAAAAAAAAAAAAAAAAAAAAAAAAAAAAAAAAAAAAAAAX" : String).toList.indexOf 'X' = 49 := by
  exact ⟨rfl, rfl, rfl, by decide, by decide, by decide⟩

/-- C4 (amended): for every length-50 input containing an out-of-alphabet
residue, both operations fail with the invalid-character error listing the
offending symbols in order of occurrence (but not their positions), and no
result is returned. -/
theorem claim_C4_invalid_residue_error (s : String) (h50 : s.length = 50)
    (hbad : s.toList.filter (fun c => !(aaList.contains c)) ≠ []) :
    generateSimilarSequencesValidation s =
      .error ("Invalid amino acid characters found: " ++
        joinChars (s.toList.filter (fun c => !(aaList.contains c)))) ∧
    predictSMILESValidation s =
      .error ("Invalid amino acid characters found: " ++
        joinChars (s.toList.filter (fun c => !(aaList.contains c)))) := by
  have hne : ¬(s = "" ∨ s.length ≠ 50) := by
    rintro (h | h)
    · rw [h] at h50
      exact absurd h50 (by decide)
    · exact h h50
  constructor
  · rw [generateSimilarSequencesValidation, if_neg hne, if_pos hbad]
  · rw [predictSMILESValidation, if_neg hne, if_pos hbad]

theorem claim_C4_witness :
    ("AAAAAAAAAAAAAAAAAAAAAAAAAAAAAAAAAAAAAAAAAAAAAAAAXB" : String).length = 50 ∧
    ("AAAAAAAAAAAAAAAAAAAAAAAAAAAAAAAAAAAAAAAAAAAAAAAAXB" : String).toList.filter
      (fun c => !(aaList.contains c)) ≠ [] ∧
    (generateSimilarSequencesValidation
        "AAAAAAAAAAAAAAAAAAAAAAAAAAAAAAAAAAAAAAAAAAAAAAAAXB" =
      .error ("Invalid amino acid characters found: " ++
        joinChars (("AAAAAAAAAAAAAAAAAAAAAAAAAAAAAAAAAAAAAAAAAAAAAAAAXB" : String).toList.filter
          (fun c => !(aaList.contains c)))) ∧
    predictSMILESValidation
        "AAAAAAAAAAAAAAAAAAAAAAAAAAAAAAAAAAAAAAAAAAAAAAAAXB" =
      .error ("Invalid amino acid characters found: " ++
        joinChars (("AAAAAAAAAAAAAAAAAAAAAAAAAAAAAAAAAAAAAAAAAAAAAAAAXB" : String).toList.filter
          (fun c => !(aaList.contains c))))) :=
  ⟨by decide, by decide,
    claim_C4_invalid_residue_error
      "AAAAAAAAAAAAAAAAAAAAAAAAAAAAAAAAAAAAAAAAAAAAAAAAXB" (by decide) (by decide)⟩

/-- C9: `mockPredictSMILES` is deterministic — it returns an element of the
fixed 10-entry `commonSMILES` list selected by the sequence hash, so two
calls with the same input always return the same string. -/
theorem claim_C9_mockPredictSMILES (s : String) :
    mockPredictSMILES s ∈ commonSMILES ∧
    commonSMILES.length = 10 ∧
    mockPredictSMILES s = commonSMILES.getD ((hashOf s).natAbs % 10) "" ∧
    ∀ t : String, t = s → mockPredictSMILES t = mockPredictSMILES s := by
  refine ⟨?_, rfl, rfl, fun t ht => by rw [ht]⟩
  have hlt : (hashOf s).natAbs % commonSMILES.length < commonSMILES.length :=
    Nat.mod_lt _ (by decide)
  rw [mockPredictSMILES, List.getD_eq_getElem _ _ hlt]
  exact List.getElem_mem hlt

theorem claim_C9_witness :
    mockPredictSMILES "A" ∈ commonSMILES ∧
      mockPredictSMILES "A" = mockPredictSMILES "A" :=
  ⟨(claim_C9_mockPredictSMILES "A").1,
    (claim_C9_mockPredictSMILES "A").2.2.2 "A" rfl⟩

/-- C8: for every input accepted by validation, every entry produced by the
mock sequence generator keeps the input length (50), stays inside the
canonical alphabet, the result has exactly 5 entries, and every score lies
in the half-open interval from 5/2 to 4 (scores modelled as exact
rationals; the random stream delivers values in the unit interval, as
`Math.random()` does). -/
theorem claim_C8_mockGenerateSequences (rs : Nat → ℚ)
    (hrs : ∀ n, 0 ≤ rs n ∧ rs n < 1) (base : String)
    (hvalid : (validateProteinSequence base).isValid = true) :
    (mockGenerateSequences rs base.toList).length = 5 ∧
    ∀ e ∈ mockGenerateSequences rs base.toList,
      e.sequence.length = base.toList.length ∧ e.sequence.length = 50 ∧
      (∀ c ∈ e.sequence, c ∈ aaList) ∧ 5 / 2 ≤ e.score ∧ e.score < 4 := by
  rw [validateProteinSequence_isValid_eq, List.isEmpty_iff] at hvalid
  obtain ⟨-, hlen, hchars⟩ := (validateProteinSequence_errors_iff base).mp hvalid
  have hlen' : base.toList.length = 50 := hlen
  constructor
  · rw [mockGenerateSequences, List.length_insertionSort, mockLoop_length]
  · intro e he
    rw [mockGenerateSequences, List.mem_insertionSort] at he
    have h := mockLoop_mem rs base.toList hrs hchars 5 0 e he
    exact ⟨h.1, by rw [h.1]; exact hlen', h.2.1, h.2.2⟩

theorem claim_C8_witness :
    (∀ n : Nat, 0 ≤ (fun _ : Nat => (0 : ℚ)) n ∧ (fun _ : Nat => (0 : ℚ)) n < 1) ∧
    (validateProteinSequence
      "AAAAAAAAAAAAAAAAAAAAAAAAAAAAAAAAAAAAAAAAAAAAAAAAAA").isValid = true ∧
    (mockGenerateSequences (fun _ => 0)
      "AAAAAAAAAAAAAAAAAAAAAAAAAAAAAAAAAAAAAAAAAAAAAAAAAA".toList).length = 5 :=
  ⟨fun _ => ⟨le_refl 0, by norm_num⟩, by decide,
    (claim_C8_mockGenerateSequences (fun _ => 0)
      (fun _ => ⟨le_refl 0, by norm_num⟩)
      "AAAAAAAAAAAAAAAAAAAAAAAAAAAAAAAAAAAAAAAAAAAAAAAAAA" (by decide)).1⟩

/-- C1: on valid inputs `rank` succeeds, returns at most `k` results, and
the score of every returned candidate equals the independently-stated sum
over positions `i` in `[0, L)` of the substitution-matrix entries. -/
theorem claim_C1_rank_score (reference : List Char)
    (candidates : List (List Char)) (k : Nat)
    (hlen : ∀ c ∈ candidates, c.length = reference.length)
    (href : ∀ x ∈ reference, x ∈ aaList)
    (hcand : ∀ c ∈ candidates, ∀ x ∈ c, x ∈ aaList) :
    ∃ res, rank reference candidates k = .ok res ∧ res.length ≤ k ∧
      ∀ sc ∈ res, sc.score = specPositionalScore reference sc.sequence := by
  refine ⟨_, rank_ok k hlen href hcand, List.length_take_le _ _, ?_⟩
  intro sc hsc
  have h1 := List.mem_of_mem_take hsc
  rw [List.mem_insertionSort] at h1
  obtain ⟨c, hc, rfl⟩ := List.mem_map.mp h1
  exact scoreAgainst_eq_spec reference c (hlen c hc)

theorem claim_C1_witness :
    (∀ c ∈ [['A', 'C'], ['C', 'C']], c.length = (['A', 'C'] : List Char).length) ∧
    (∀ x ∈ (['A', 'C'] : List Char), x ∈ aaList) ∧
    (∀ c ∈ [['A', 'C'], ['C', 'C']], ∀ x ∈ c, x ∈ aaList) ∧
    ∃ res, rank ['A', 'C'] [['A', 'C'], ['C', 'C']] 2 = .ok res ∧
      res.length ≤ 2 ∧
      ∀ sc ∈ res, sc.score = specPositionalScore ['A', 'C'] sc.sequence :=
  ⟨by decide, by decide, by decide,
    claim_C1_rank_score ['A', 'C'] [['A', 'C'], ['C', 'C']] 2
      (by decide) (by decide) (by decide)⟩

/-- C2: on valid inputs the result of `rank` is ordered by descending
score, it is the `k`-prefix of the stable sort of the scored candidates,
and at every score value the sorted list filters to exactly the same
subsequence as the input candidate list (stability: equal-score candidates
keep their input order). -/
theorem claim_C2_rank_sorted_stable (reference : List Char)
    (candidates : List (List Char)) (k : Nat)
    (hlen : ∀ c ∈ candidates, c.length = reference.length)
    (href : ∀ x ∈ reference, x ∈ aaList)
    (hcand : ∀ c ∈ candidates, ∀ x ∈ c, x ∈ aaList) :
    ∃ res, rank reference candidates k = .ok res ∧
      res.Pairwise (fun a b => b.score ≤ a.score) ∧
      res = (List.insertionSort (keyGE ScoredCandidate.score)
        (candidates.map
          (fun c => { sequence := c, score := scoreAgainst reference c }))).take k ∧
      ∀ s : Int,
        (List.insertionSort (keyGE ScoredCandidate.score)
          (candidates.map
            (fun c => { sequence := c, score := scoreAgainst reference c }))).filter
          (fun sc => decide (sc.score = s)) =
        (candidates.map
          (fun c => { sequence := c, score := scoreAgainst reference c })).filter
          (fun sc => decide (sc.score = s)) := by
  refine ⟨_, rank_ok k hlen href hcand, ?_, rfl,
    fun s => filter_insertionSort ScoredCandidate.score s _⟩
  have hs := List.sorted_insertionSort (keyGE ScoredCandidate.score)
    (candidates.map
      (fun c => { sequence := c, score := scoreAgainst reference c : ScoredCandidate }))
  exact hs.take

theorem claim_C2_witness :
    (∀ c ∈ [['A', 'C'], ['C', 'C']], c.length = (['A', 'C'] : List Char).length) ∧
    ∃ res, rank ['A', 'C'] [['A', 'C'], ['C', 'C']] 2 = .ok res ∧
      res.Pairwise (fun a b => b.score ≤ a.score) := by
  obtain ⟨res, h1, h2, -⟩ := claim_C2_rank_sorted_stable ['A', 'C']
    [['A', 'C'], ['C', 'C']] 2 (by decide) (by decide) (by decide)
  exact ⟨by decide, res, h1, h2⟩

/-- C3: the ranking operation is a pure, deterministic function of its
inputs — two calls with identical reference, candidates and `k` return
identical values (the embedding of `rank` as a total function is itself
the statement that it has no side effects or hidden state). -/
theorem claim_C3_rank_deterministic (r₁ r₂ : List Char)
    (c₁ c₂ : List (List Char)) (k₁ k₂ : Nat)
    (hr : r₁ = r₂) (hc : c₁ = c₂) (hk : k₁ = k₂) :
    rank r₁ c₁ k₁ = rank r₂ c₂ k₂ := by
  rw [hr, hc, hk]

theorem claim_C3_witness :
    rank ['A'] [['A']] 1 = rank ['A'] [['A']] 1 :=
  claim_C3_rank_deterministic ['A'] ['A'] [['A']] [['A']] 1 1 rfl rfl rfl

/-- C6: on valid inputs the result of `rank` has length
`min k candidates.length` — `k` larger than the candidate count yields
exactly `candidates.length` entries, and an empty candidate list yields the
empty result rather than an error. -/
theorem claim_C6_rank_length (reference : List Char)
    (candidates : List (List Char)) (k : Nat)
    (hlen : ∀ c ∈ candidates, c.length = reference.length)
    (href : ∀ x ∈ reference, x ∈ aaList)
    (hcand : ∀ c ∈ candidates, ∀ x ∈ c, x ∈ aaList) :
    ∃ res, rank reference candidates k = .ok res ∧
      res.length = min k candidates.length ∧
      (candidates = [] → res = []) := by
  refine ⟨_, rank_ok k hlen href hcand, ?_, ?_⟩
  · rw [List.length_take, List.length_insertionSort, List.length_map]
  · rintro rfl
    simp [List.insertionSort]

theorem claim_C6_witness :
    (∀ x ∈ (['A'] : List Char), x ∈ aaList) ∧
    ∃ res, rank ['A'] [['A']] 7 = .ok res ∧
      res.length = min 7 ([['A']] : List (List Char)).length :=
  ⟨by decide,
    match claim_C6_rank_length ['A'] [['A']] 7 (by decide) (by decide) (by decide) with
    | ⟨res, h1, h2, _⟩ => ⟨res, h1, h2⟩⟩

/-- C7: on valid inputs with the reference among the candidates and
`k ≥ 1`, `rank` assigns the reference the diagonal sum
`specSelfScore reference`, no candidate scores higher, and the first entry
of the result carries exactly that top score (the reference ranks first or
ties for first). -/
theorem claim_C7_rank_self_first (reference : List Char)
    (candidates : List (List Char)) (k : Nat)
    (hlen : ∀ c ∈ candidates, c.length = reference.length)
    (href : ∀ x ∈ reference, x ∈ aaList)
    (hcand : ∀ c ∈ candidates, ∀ x ∈ c, x ∈ aaList)
    (hmem : reference ∈ candidates) (hk : 1 ≤ k) :
    ∃ res, rank reference candidates k = .ok res ∧
      scoreAgainst reference reference = specSelfScore reference ∧
      { sequence := reference, score := specSelfScore reference : ScoredCandidate } ∈
        List.insertionSort (keyGE ScoredCandidate.score)
          (candidates.map
            (fun c => { sequence := c, score := scoreAgainst reference c })) ∧
      (∀ sc ∈ res, sc.score ≤ specSelfScore reference) ∧
      res ≠ [] ∧
      (res.headD { sequence := [], score := 0 }).score = specSelfScore reference := by
  have hself : scoreAgainst reference reference = specSelfScore reference :=
    scoreAgainst_self reference
  refine ⟨_, rank_ok k hlen href hcand, hself, ?_⟩
  set scored := candidates.map
    (fun c => { sequence := c, score := scoreAgainst reference c : ScoredCandidate })
    with hscored
  set sorted := List.insertionSort (keyGE ScoredCandidate.score) scored with hsorted
  have hmem' :
      { sequence := reference, score := specSelfScore reference : ScoredCandidate } ∈
        sorted := by
    rw [hsorted, List.mem_insertionSort, hscored]
    exact List.mem_map.mpr ⟨reference, hmem, by rw [hself]⟩
  have hub : ∀ sc ∈ sorted, sc.score ≤ specSelfScore reference := by
    intro sc hsc
    rw [hsorted, List.mem_insertionSort, hscored] at hsc
    obtain ⟨c, hc, rfl⟩ := List.mem_map.mp hsc
    calc scoreAgainst reference c
        ≤ scoreAgainst reference reference :=
          scoreAgainst_le_self reference c (hlen c hc) href (hcand c hc)
      _ = specSelfScore reference := hself
  refine ⟨hmem', ?_, ?_, ?_⟩
  · intro sc hsc
    exact hub sc (List.mem_of_mem_take hsc)
  · intro hempty
    have hne : sorted ≠ [] := by
      intro h
      rw [h] at hmem'
      exact List.not_mem_nil _ hmem'
    obtain ⟨x, rest, hx⟩ := List.exists_cons_of_ne_nil hne
    obtain ⟨k', rfl⟩ : ∃ k', k = k' + 1 := ⟨k - 1, by omega⟩
    rw [hx, List.take_succ_cons] at hempty
    exact List.cons_ne_nil _ _ hempty
  · obtain ⟨x, rest, hx⟩ := List.exists_cons_of_ne_nil (l := sorted)
      (by
        intro h
        rw [h] at hmem'
        exact List.not_mem_nil _ hmem')
    obtain ⟨k', rfl⟩ : ∃ k', k = k' + 1 := ⟨k - 1, by omega⟩
    rw [hx, List.take_succ_cons]
    simp only [List.headD_cons]
    have hle : x.score ≤ specSelfScore reference := by
      refine hub x ?_
      rw [hx]
      exact List.mem_cons_self x rest
    have hge : specSelfScore reference ≤ x.score := by
      have hsort := List.sorted_insertionSort (keyGE ScoredCandidate.score) scored
      rw [← hsorted, hx] at hsort
      rcases List.mem_cons.mp (hx ▸ hmem') with heq | hrest
      · rw [← heq]
      · exact List.rel_of_sorted_cons hsort _ hrest
    exact le_antisymm hle hge

theorem claim_C7_witness :
    ((['A', 'C'] : List Char) ∈ [['C', 'A'], ['A', 'C']] ∧ 1 ≤ 1) ∧
    ∃ res, rank ['A', 'C'] [['C', 'A'], ['A', 'C']] 1 = .ok res ∧
      res ≠ [] ∧
      (res.headD { sequence := [], score := 0 }).score = specSelfScore ['A', 'C'] := by
  obtain ⟨res, h1, -, -, -, h5, h6⟩ := claim_C7_rank_self_first ['A', 'C']
    [['C', 'A'], ['A', 'C']] 1 (by decide) (by decide) (by decide)
    (by decide) (by decide)
  exact ⟨⟨by decide, by decide⟩, res, h1, h5, h6⟩

theorem claim_C10_witness :
    (validateProteinSequence
      "AAAAAAAAAAAAAAAAAAAAAAAAAAAAAAAAAAAAAAAAAAAAAAAAAA").isValid = true ↔
    (("AAAAAAAAAAAAAAAAAAAAAAAAAAAAAAAAAAAAAAAAAAAAAAAAAA" : String) ≠ "" ∧
      ("AAAAAAAAAAAAAAAAAAAAAAAAAAAAAAAAAAAAAAAAAAAAAAAAAA" : String).length = 50 ∧
      ∀ c ∈ ("AAAAAAAAAAAAAAAAAAAAAAAAAAAAAAAAAAAAAAAAAAAAAAAAAA" : String).toList,
        c ∈ aaList) :=
  (claim_C10_validateProteinSequence
    "AAAAAAAAAAAAAAAAAAAAAAAAAAAAAAAAAAAAAAAAAAAAAAAAAA").1
